import Mathlib

/-!
Verification of the sularchi waste-reporting core services: the points and
streak gamification engine, the complaint persistence store, the
label-to-category classification mapping with its heuristic fallback, and
the leaderboard builder.  Definitions are shallow embeddings of the
TypeScript services (complaint store and waste classifier); JavaScript
numbers are modelled as `Int`/`ℚ`, 32-bit coercions (`| 0`, `<<`, `>>`)
are made explicit, and `Array.prototype.sort` (stable per ECMAScript) is
modelled by `List.insertionSort`, which is stable.
-/

namespace Sularchi

/-- The nine waste categories of the classifier (`WasteCategory` union type);
`ewaste` stands for the source's `'e-waste'`. -/
inductive WasteCategory where
  | plastic
  | paper
  | glass
  | metal
  | organic
  | ewaste
  | textile
  | hazardous
  | unknown
deriving DecidableEq, Repr

/-- Per-category base points (`POINTS_TABLE` in the complaint store). -/
def POINTS_TABLE : WasteCategory → Int
  | .plastic => 10
  | .paper => 8
  | .glass => 12
  | .metal => 12
  | .organic => 6
  | .ewaste => 20
  | .textile => 10
  | .hazardous => 25
  | .unknown => 3

/-- Extra points per active streak day (`STREAK_BONUS`). -/
def STREAK_BONUS : Int := 5

/-- Bonus when confidence is at least 85% (`HIGH_CONFIDENCE_BONUS`). -/
def HIGH_CONFIDENCE_BONUS : Int := 5

/-- Embedding of `calculatePoints(category, confidence, currentStreak)`.
The source's `POINTS_TABLE[category] || 3` falls back to 3 when the table
value is falsy (0); the explicit zero test mirrors that. -/
def calculatePoints (category : WasteCategory) (confidence : ℚ) (currentStreak : Int) : Int :=
  let base := POINTS_TABLE category
  let points0 := if base = 0 then 3 else base
  let points1 := if (0.85 : ℚ) ≤ confidence then points0 + HIGH_CONFIDENCE_BONUS else points0
  if 0 < currentStreak then points1 + min currentStreak 7 * STREAK_BONUS else points1

/-- The per-category base table exactly as the specification document states
it, written independently of `POINTS_TABLE` so the two can be compared. -/
def specBasePoints : WasteCategory → Int
  | .plastic => 10
  | .paper => 8
  | .glass => 12
  | .metal => 12
  | .organic => 6
  | .ewaste => 20
  | .textile => 10
  | .hazardous => 25
  | .unknown => 3

/-- A local calendar date as JavaScript `Date` accessors expose it:
`getFullYear()`, `getMonth()` (0-11) and `getDate()` (1-31). -/
structure LocalDate where
  year : Int
  month : Nat
  day : Nat
deriving DecidableEq, Repr

/-- An instant: `ms` is the `Date.getTime()` value and `date` the local
calendar day of the same instant. -/
structure Timestamp where
  ms : Int
  date : LocalDate
deriving DecidableEq, Repr

/-- Gregorian leap-year rule, as used by JavaScript date normalization. -/
def isLeapYear (y : Int) : Bool :=
  (y % 4 == 0 && y % 100 != 0) || (y % 400 == 0)

/-- Number of days of a (0-indexed) month, used when `setDate(0)` rolls a
date back into the previous month. -/
def daysInMonth (year : Int) (month : Nat) : Nat :=
  match month with
  | 1 => if isLeapYear year then 29 else 28
  | 3 => 30
  | 5 => 30
  | 8 => 30
  | 10 => 30
  | _ => 31

/-- The calendar day before `d`: the effect of
`yesterday.setDate(yesterday.getDate() - 1)` in `isYesterday`. -/
def prevCalendarDay (d : LocalDate) : LocalDate :=
  if 1 < d.day then { d with day := d.day - 1 }
  else if 0 < d.month then
    { year := d.year, month := d.month - 1, day := daysInMonth d.year (d.month - 1) }
  else { year := d.year - 1, month := 11, day := 31 }

/-- Embedding of `isSameDay(d1, d2)`: same local year, month and day. -/
def isSameDay (d1 d2 : LocalDate) : Bool :=
  d1.year == d2.year && d1.month == d2.month && d1.day == d2.day

/-- Embedding of `isYesterday(d1, d2)`. -/
def isYesterday (d1 d2 : LocalDate) : Bool :=
  isSameDay d1 (prevCalendarDay d2)

/-- Embedding of `computeStreak(lastReportDate, currentStreak)`; `now` makes
the source's `new Date()` explicit. -/
def computeStreak (lastReportDate : Option Timestamp) (currentStreak : Int)
    (now : Timestamp) : Int :=
  match lastReportDate with
  | none => 1
  | some last =>
    if isSameDay last.date now.date then currentStreak
    else if isYesterday last.date now.date then currentStreak + 1
    else 1

/-- Embedding of the `GeoLocation` interface. -/
structure GeoLocation where
  latitude : ℚ
  longitude : ℚ
  accuracy : Option ℚ
  address : Option String
deriving DecidableEq, Repr

/-- Embedding of the `ComplaintStatus` union type. -/
inductive ComplaintStatus where
  | pending
  | inProgress
  | resolved
deriving DecidableEq, Repr

/-- Embedding of the `Complaint` interface; ISO timestamp strings are
modelled by `Timestamp`. -/
structure Complaint where
  id : String
  imageUri : String
  wasteCategory : WasteCategory
  confidence : ℚ
  wasteLabel : String
  description : String
  location : GeoLocation
  pointsAwarded : Int
  status : ComplaintStatus
  createdAt : Timestamp
  updatedAt : Timestamp
deriving DecidableEq, Repr

/-- Embedding of the `UserProfile` interface. -/
structure UserProfile where
  id : String
  name : String
  totalPoints : Int
  totalReports : Int
  streak : Int
  lastReportDate : Option Timestamp
  joinedAt : Timestamp
  rank : Int
deriving DecidableEq, Repr

/-- The `DEFAULT_PROFILE` constant; its `joinedAt` captures the creation
instant, made explicit as a parameter. -/
def DEFAULT_PROFILE (joinedAt : Timestamp) : UserProfile :=
  { id := "local-user", name := "Eco Warrior", totalPoints := 0, totalReports := 0,
    streak := 0, lastReportDate := none, joinedAt := joinedAt, rank := 0 }

/-- One AsyncStorage record: `absent` models `getItem` returning null,
`corrupt` a read or parse failure (which the store catches), and `value` a
successfully parsed record. -/
inductive Cell (α : Type) where
  | absent
  | corrupt
  | value (a : α)
deriving DecidableEq, Repr

/-- The persisted state: the two AsyncStorage keys the complaint store
uses (`USER_PROFILE_KEY` and `COMPLAINTS_KEY`). -/
structure Store where
  profileCell : Cell UserProfile
  complaintsCell : Cell (List Complaint)
deriving DecidableEq, Repr

/-- Embedding of `getUserProfile()`: the stored profile, or a fresh default
when the record is missing or the read fails. -/
def getUserProfile (store : Store) (now : Timestamp) : UserProfile :=
  match store.profileCell with
  | .value p => p
  | _ => DEFAULT_PROFILE now

/-- Embedding of `saveUserProfile(profile)`. -/
def saveUserProfile (store : Store) (profile : UserProfile) : Store :=
  { store with profileCell := .value profile }

/-- Embedding of `updateUserName(name)`: returns the updated profile and
the updated store. -/
def updateUserName (store : Store) (name : String) (now : Timestamp) :
    UserProfile × Store :=
  let profile := { getUserProfile store now with name := name }
  (profile, saveUserProfile store profile)

/-- The comparator `(a, b) => new Date(b.createdAt).getTime() - new
Date(a.createdAt).getTime()`: `a` sorts no later than `b` when its creation
time is no earlier. -/
def complaintOrder (a b : Complaint) : Prop :=
  b.createdAt.ms ≤ a.createdAt.ms

instance : DecidableRel complaintOrder :=
  fun a b => inferInstanceAs (Decidable (b.createdAt.ms ≤ a.createdAt.ms))

instance : IsTotal Complaint complaintOrder :=
  ⟨fun a b => le_total b.createdAt.ms a.createdAt.ms⟩

instance : IsTrans Complaint complaintOrder :=
  ⟨fun _ _ _ h1 h2 => le_trans h2 h1⟩

/-- Embedding of `getComplaints()`: the persisted log sorted newest first
(ECMAScript's stable `Array#sort`, modelled by `insertionSort`), or empty
when the record is missing or the read fails. -/
def getComplaints (store : Store) : List Complaint :=
  match store.complaintsCell with
  | .value cs => List.insertionSort complaintOrder cs
  | _ => []

/-- The input record of `fileComplaint`. -/
structure FileComplaintParams where
  imageUri : String
  wasteCategory : WasteCategory
  confidence : ℚ
  wasteLabel : String
  description : String
  location : GeoLocation
deriving DecidableEq, Repr

/-- What `fileComplaint` produces: the returned triple plus the updated
persistent state. -/
structure FileComplaintResult where
  complaint : Complaint
  profile : UserProfile
  pointsAwarded : Int
  store : Store
deriving DecidableEq, Repr

/-- Embedding of `fileComplaint(params)`; `now` stands for the `new Date()`
calls and `freshId` for the generated `complaint-...` id. -/
def fileComplaint (store : Store) (params : FileComplaintParams) (now : Timestamp)
    (freshId : String) : FileComplaintResult :=
  let profile := getUserProfile store now
  let newStreak := computeStreak profile.lastReportDate profile.streak now
  let pointsAwarded := calculatePoints params.wasteCategory params.confidence newStreak
  let complaint : Complaint :=
    { id := freshId, imageUri := params.imageUri, wasteCategory := params.wasteCategory,
      confidence := params.confidence, wasteLabel := params.wasteLabel,
      description := params.description, location := params.location,
      pointsAwarded := pointsAwarded, status := .pending, createdAt := now,
      updatedAt := now }
  let complaints := complaint :: getComplaints store
  let store1 := { store with complaintsCell := .value complaints }
  let profile1 := { profile with
    totalPoints := profile.totalPoints + pointsAwarded,
    totalReports := profile.totalReports + 1,
    streak := newStreak,
    lastReportDate := some now }
  { complaint := complaint, profile := profile1, pointsAwarded := pointsAwarded,
    store := saveUserProfile store1 profile1 }

/-- Number of complaints in the persisted log (0 when the record is missing
or unreadable). -/
def persistedComplaintCount (store : Store) : Nat :=
  match store.complaintsCell with
  | .value cs => cs.length
  | _ => 0

/-- Store states reachable from the initial state (no persisted records) by
the store's own write operations: filing a complaint, renaming the user, and
re-saving the profile that `getUserProfile` returns; the read operations do
not change the state. -/
inductive Reachable : Store → Prop where
  | init : Reachable ⟨Cell.absent, Cell.absent⟩
  | file {s} (params : FileComplaintParams) (now : Timestamp) (freshId : String) :
      Reachable s → Reachable (fileComplaint s params now freshId).store
  | rename {s} (name : String) (now : Timestamp) :
      Reachable s → Reachable (updateUserName s name now).2
  | saveCurrent {s} (now : Timestamp) :
      Reachable s → Reachable (saveUserProfile s (getUserProfile s now))

/-- One merged Vision annotation: a description and its score. -/
structure LabelInfo where
  description : String
  score : ℚ
deriving DecidableEq, Repr

/-- Whether `sub` starts `l`, on character lists. -/
def chainStartsWith : List Char → List Char → Bool
  | [], _ => true
  | _ :: _, [] => false
  | a :: as, b :: bs => a == b && chainStartsWith as bs

/-- Whether `sub` occurs contiguously inside `l`. -/
def chainHasSub (sub : List Char) : List Char → Bool
  | [] => chainStartsWith sub []
  | b :: t => chainStartsWith sub (b :: t) || chainHasSub sub t

/-- JS `s.includes(sub)`: substring test. -/
def jsIncludes (s sub : String) : Bool :=
  chainHasSub sub.data s.data

/-- ASCII lowercase of one character, as `toLowerCase` acts on the ASCII
keywords and labels involved. -/
def charToLower (c : Char) : Char :=
  if 65 ≤ c.toNat ∧ c.toNat ≤ 90 then Char.ofNat (c.toNat + 32) else c

/-- JS `s.toLowerCase()`. -/
def jsToLower (s : String) : String :=
  ⟨s.data.map charToLower⟩

/-- One row of the keyword table. -/
structure CategoryEntry where
  category : WasteCategory
  keywords : List String
deriving DecidableEq, Repr

/-- The `LABEL_TO_CATEGORY` keyword table of the waste classifier. -/
def LABEL_TO_CATEGORY : List CategoryEntry :=
  [⟨.plastic, ["plastic", "bottle", "polythene", "polyethylene", "container",
      "packaging", "wrapper", "bag", "cup", "straw", "lid", "polymer",
      "pet bottle", "plastic bag", "plastic wrap"]⟩,
   ⟨.paper, ["paper", "cardboard", "newspaper", "magazine", "carton", "book",
      "envelope", "tissue", "napkin", "document"]⟩,
   ⟨.glass, ["glass", "jar", "wine bottle", "beer bottle", "glass bottle",
      "mirror", "window"]⟩,
   ⟨.metal, ["metal", "aluminum", "aluminium", "tin", "can", "steel", "iron",
      "copper", "foil", "scrap metal", "beverage can"]⟩,
   ⟨.organic, ["food", "fruit", "vegetable", "plant", "leaf", "flower", "compost",
      "wood", "biodegradable", "garden waste", "yard waste", "coffee",
      "banana", "apple", "bread", "meat", "egg"]⟩,
   ⟨.ewaste, ["electronic", "circuit board", "battery", "cable", "computer",
      "phone", "laptop", "keyboard", "monitor", "charger", "wire",
      "gadget", "device", "motherboard", "smartphone", "tablet"]⟩,
   ⟨.textile, ["textile", "fabric", "clothing", "shirt", "shoe", "cloth",
      "garment", "cotton", "denim", "leather", "wool", "jacket",
      "pants", "dress", "sock"]⟩,
   ⟨.hazardous, ["chemical", "paint", "solvent", "pesticide", "medical", "syringe",
      "aerosol", "bleach", "acid", "poison", "toxic", "biohazard",
      "fluorescent", "oil"]⟩]

/-- The running score of one category during the label scan. -/
structure CatScore where
  count : Nat
  maxScore : ℚ
  bestLabel : String
deriving DecidableEq, Repr

/-- The effect of one (label, entry) pair in the scan loops of
`mapLabelsToCategory`: on the first matching keyword the count goes up and
the best score and label refresh when the label's score beats the recorded
maximum; the `break` makes at most one hit per label and entry. -/
def updateCat (s : CatScore) (label : LabelInfo) (keywords : List String) : CatScore :=
  if keywords.any (fun kw => jsIncludes (jsToLower label.description) kw) then
    { count := s.count + 1,
      maxScore := if s.maxScore < label.score then label.score else s.maxScore,
      bestLabel := if s.maxScore < label.score then label.description else s.bestLabel }
  else s

/-- Scanning one label against every entry of `LABEL_TO_CATEGORY` (the inner
loop of `mapLabelsToCategory`, updating the `scores` record). -/
def stepLabel (scores : WasteCategory → CatScore) (label : LabelInfo) :
    WasteCategory → CatScore :=
  LABEL_TO_CATEGORY.foldl
    (fun sc entry => fun c =>
      if c = entry.category then updateCat (sc entry.category) label entry.keywords
      else sc c)
    scores

/-- The `scores` record after the full scan over `labels`. -/
def computeScores (labels : List LabelInfo) : WasteCategory → CatScore :=
  labels.foldl stepLabel (fun _ => ⟨0, 0, ""⟩)

/-- The keyword list recorded for a category in `LABEL_TO_CATEGORY` (empty
for `unknown`, which has no row). -/
def keywordsOf (c : WasteCategory) : List String :=
  ((LABEL_TO_CATEGORY.find? (fun e => e.category == c)).map CategoryEntry.keywords).getD []

/-- The per-category scan restated as a single fold over the labels; proved
equal to `computeScores` pointwise. -/
def pointScores (c : WasteCategory) (labels : List LabelInfo) : CatScore :=
  labels.foldl (fun s label => updateCat s label (keywordsOf c)) ⟨0, 0, ""⟩

/-- Whether a label hits some keyword of category `c`. -/
def labelMatches (c : WasteCategory) (l : LabelInfo) : Bool :=
  (keywordsOf c).any (fun kw => jsIncludes (jsToLower l.description) kw)

/-- The accumulator of the selection loop of `mapLabelsToCategory`
(`best`, `bestCount`, `bestScore`, `bestLabel`). -/
structure BestAcc where
  best : WasteCategory
  bestCount : Nat
  bestScore : ℚ
  bestLabel : String
deriving DecidableEq, Repr

/-- One step of the selection loop: take the entry's category when its
count is higher, or equal with a higher best score. -/
def selectStep (scores : WasteCategory → CatScore) (acc : BestAcc)
    (entry : CategoryEntry) : BestAcc :=
  let s := scores entry.category
  if acc.bestCount < s.count ∨ (s.count = acc.bestCount ∧ acc.bestScore < s.maxScore) then
    ⟨entry.category, s.count, s.maxScore, s.bestLabel⟩
  else acc

/-- The selection loop over the whole table. -/
def selectBest (scores : WasteCategory → CatScore) : BestAcc :=
  LABEL_TO_CATEGORY.foldl (selectStep scores) ⟨.unknown, 0, 0, ""⟩

/-- The result record of `mapLabelsToCategory`. -/
structure MapResult where
  category : WasteCategory
  confidence : ℚ
  bestLabel : String
deriving DecidableEq, Repr

/-- JS `Math.round(q * 100) / 100`: two decimals, halves rounding up. -/
def jsRound2 (q : ℚ) : ℚ := (⌊q * 100 + 1 / 2⌋ : ℚ) / 100

/-- Embedding of `mapLabelsToCategory(labels)`. -/
def mapLabelsToCategory (labels : List LabelInfo) : MapResult :=
  let acc := selectBest (computeScores labels)
  if acc.bestCount = 0 then
    { category := .unknown, confidence := 0.5,
      bestLabel := ((labels.head?).map LabelInfo.description).getD "" }
  else
    { category := acc.best,
      confidence := min 1 (max 0 (jsRound2 acc.bestScore)),
      bestLabel := acc.bestLabel }

/-- Coercion to a signed 32-bit integer: the effect of JS `| 0` and of the
operands of `<<` and `>>`. -/
def toInt32 (n : Int) : Int := (n + 2 ^ 31) % 2 ^ 32 - 2 ^ 31

/-- JS `%`, whose result keeps the dividend's sign. -/
def jsRem (a b : Int) : Int := if a < 0 then -((-a) % b) else a % b

/-- The hash accumulator step `((acc << 5) - acc + charCode) | 0`. -/
def hashStep (acc : Int) (code : Nat) : Int :=
  toInt32 (toInt32 (acc * 2 ^ 5) - acc + code)

/-- The reduce-based string hash in `analyzeImageFeatures` (character codes
are UTF-16 units; for the BMP strings involved, `Char.toNat`). -/
def jsHash (s : String) : Int :=
  s.data.foldl (fun acc ch => hashStep acc ch.toNat) 0

/-- The pseudo-features derived from the hash. -/
structure ImageFeatures where
  dominantHue : Int
  brightness : ℚ
  saturation : ℚ
deriving DecidableEq, Repr

/-- Embedding of `analyzeImageFeatures(imageUri)`; `>> 8` coerces to Int32
and then divides by 256 rounding toward negative infinity. -/
def analyzeImageFeatures (imageUri : String) : ImageFeatures :=
  let normalizedHash := |jsHash imageUri|
  { dominantHue := jsRem normalizedHash 360,
    brightness := (jsRem normalizedHash 100 : ℚ) / 100,
    saturation := (jsRem (Int.fdiv (toInt32 normalizedHash) (2 ^ 8)) 100 : ℚ) / 100 }

/-- The eight non-unknown categories in the heuristic's order. -/
def heuristicCategories : List WasteCategory :=
  [.plastic, .paper, .glass, .metal, .organic, .ewaste, .textile, .hazardous]

/-- The heuristic fallback path at the end of `classifyWaste`: the category
is picked by `categories[Math.floor(hue / 360 * 8)] || 'unknown'` and the
confidence clamped to [0.60, 0.95] and rounded to two decimals. -/
def heuristicClassify (imageUri : String) : WasteCategory × ℚ :=
  let features := analyzeImageFeatures imageUri
  let categoryIndex := ⌊(features.dominantHue : ℚ) / 360 * 8⌋
  let category :=
    if categoryIndex < 0 then WasteCategory.unknown
    else heuristicCategories.getD categoryIndex.toNat WasteCategory.unknown
  let confidence :=
    min 0.95 (max 0.60 (0.70 + features.saturation * 0.2 + features.brightness * 0.1))
  (category, jsRound2 confidence)

/-- Embedding of the `LeaderboardEntry` interface; before rank assignment
the source records carry no `rank` field, modelled here as rank 0. -/
structure LeaderboardEntry where
  id : String
  name : String
  totalPoints : Int
  totalReports : Int
  rank : Int
  isCurrentUser : Bool
deriving DecidableEq, Repr

/-- The simulated community members of `getLeaderboard`. -/
def communityMembers : List LeaderboardEntry :=
  [⟨"u1", "GreenHero", 580, 42, 0, false⟩,
   ⟨"u2", "EcoChamp", 445, 35, 0, false⟩,
   ⟨"u3", "RecycleKing", 390, 30, 0, false⟩,
   ⟨"u4", "WasteWatcher", 310, 24, 0, false⟩,
   ⟨"u5", "CleanStreet", 275, 21, 0, false⟩,
   ⟨"u6", "EarthGuard", 220, 18, 0, false⟩,
   ⟨"u7", "TrashTracker", 180, 14, 0, false⟩,
   ⟨"u8", "BinBuddy", 140, 10, 0, false⟩,
   ⟨"u9", "ZeroWaste", 95, 7, 0, false⟩]

/-- The comparator `(a, b) => b.totalPoints - a.totalPoints`: descending by
points. -/
def leaderboardOrder (a b : LeaderboardEntry) : Prop :=
  b.totalPoints ≤ a.totalPoints

instance : DecidableRel leaderboardOrder :=
  fun a b => inferInstanceAs (Decidable (b.totalPoints ≤ a.totalPoints))

instance : IsTotal LeaderboardEntry leaderboardOrder :=
  ⟨fun a b => le_total b.totalPoints a.totalPoints⟩

instance : IsTrans LeaderboardEntry leaderboardOrder :=
  ⟨fun _ _ _ h1 h2 => le_trans h2 h1⟩

/-- The rank assignment `map((entry, index) => ({ ...entry, rank: index + 1 }))`. -/
def assignRanks : Nat → List LeaderboardEntry → List LeaderboardEntry
  | _, [] => []
  | i, e :: es => { e with rank := (i : Int) + 1 } :: assignRanks (i + 1) es

/-- Embedding of `getLeaderboard()`: community members plus the current
user, stably sorted by points descending, then ranked by position. -/
def getLeaderboard (store : Store) (now : Timestamp) : List LeaderboardEntry :=
  let profile := getUserProfile store now
  let allEntries := communityMembers ++
    [{ id := profile.id, name := profile.name, totalPoints := profile.totalPoints,
       totalReports := profile.totalReports, rank := 0, isCurrentUser := true }]
  assignRanks 0 (List.insertionSort leaderboardOrder allEntries)

/-- A sample label list with a keyword match. -/
def sampleLabels : List LabelInfo := [⟨"Plastic bottle", 0.97⟩]

/-- A sample label list without any keyword match. -/
def sampleMissLabels : List LabelInfo := [⟨"Zzzq", 0.9⟩]

/-- A sample report filing input. -/
def sampleParams : FileComplaintParams :=
  { imageUri := "file://a.jpg", wasteCategory := .plastic, confidence := 0.9,
    wasteLabel := "Plastic", description := "a bottle", location := ⟨1, 2, none, none⟩ }

/-- A sample filing instant. -/
def sampleNow : Timestamp := ⟨50, ⟨2026, 9, 11⟩⟩

/-- A persisted complaint dated later (`ms = 100`) than `sampleNow`. -/
def sampleLateComplaint : Complaint :=
  { id := "old", imageUri := "file://o.jpg", wasteCategory := .paper, confidence := 1,
    wasteLabel := "Paper", description := "a box", location := ⟨0, 0, none, none⟩,
    pointsAwarded := 8, status := .pending, createdAt := ⟨100, ⟨2026, 9, 11⟩⟩,
    updatedAt := ⟨100, ⟨2026, 9, 11⟩⟩ }

/-- A store whose log holds only `sampleLateComplaint`. -/
def sampleLateStore : Store := ⟨Cell.absent, Cell.value [sampleLateComplaint]⟩

theorem isSameDay_iff {d1 d2 : LocalDate} : isSameDay d1 d2 = true ↔ d1 = d2 := by
  cases d1
  cases d2
  simp [isSameDay, and_assoc]

theorem prevCalendarDay_ne (d : LocalDate) : prevCalendarDay d ≠ d := by
  obtain ⟨y, m, dd⟩ := d
  intro h
  unfold prevCalendarDay at h
  dsimp at h
  split_ifs at h with h1 h2 <;> simp [LocalDate.mk.injEq] at h <;> omega

theorem length_getComplaints (store : Store) :
    (getComplaints store).length = persistedComplaintCount store := by
  unfold getComplaints persistedComplaintCount
  cases store.complaintsCell <;> simp [List.length_insertionSort]

/-- C2: for every category, confidence and streak, `calculatePoints` equals
the fixed per-category base plus 5 when confidence is at least 0.85 plus
`5 * min(streak, 7)` when the streak is positive; in particular
`calculatePoints('hazardous', 0.9, 3) = 45` and
`calculatePoints('organic', 0.5, 0) = 6`. -/
theorem calculatePoints_spec (category : WasteCategory) (confidence : ℚ) (streak : Int) :
    calculatePoints category confidence streak =
      specBasePoints category + (if (0.85 : ℚ) ≤ confidence then 5 else 0) +
        (if 0 < streak then 5 * min streak 7 else 0) ∧
    calculatePoints .hazardous 0.9 3 = 45 ∧
    calculatePoints .organic 0.5 0 = 6 := by
  refine ⟨?_, ?_, ?_⟩
  · cases category <;>
      simp only [calculatePoints, POINTS_TABLE, specBasePoints, STREAK_BONUS,
        HIGH_CONFIDENCE_BONUS] <;>
      split_ifs <;> omega
  · norm_num [calculatePoints, POINTS_TABLE, STREAK_BONUS, HIGH_CONFIDENCE_BONUS]
  · norm_num [calculatePoints, POINTS_TABLE, STREAK_BONUS, HIGH_CONFIDENCE_BONUS]

/-- C3: `computeStreak` returns 1 on a null last-report date, leaves the
streak unchanged on a same-calendar-day prior report, adds 1 when the prior
report falls on exactly the previous calendar day, and resets to 1 in every
other case. -/
theorem computeStreak_spec (last : Timestamp) (s : Int) (now : Timestamp) :
    computeStreak none s now = 1 ∧
    (isSameDay last.date now.date = true → computeStreak (some last) s now = s) ∧
    (isSameDay last.date (prevCalendarDay now.date) = true →
      computeStreak (some last) s now = s + 1) ∧
    (isSameDay last.date now.date = false →
      isSameDay last.date (prevCalendarDay now.date) = false →
      computeStreak (some last) s now = 1) := by
  refine ⟨rfl, ?_, ?_, ?_⟩
  · intro h
    simp [computeStreak, h]
  · intro h
    have hne : isSameDay last.date now.date = false := by
      by_contra hc
      have htrue : isSameDay last.date now.date = true := by
        revert hc
        cases isSameDay last.date now.date <;> simp
      have h1 : last.date = prevCalendarDay now.date := isSameDay_iff.mp h
      have h2 : last.date = now.date := isSameDay_iff.mp htrue
      exact prevCalendarDay_ne now.date ((h2.symm.trans h1).symm)
    simp [computeStreak, hne, isYesterday, h]
  · intro h1 h2
    simp [computeStreak, h1, isYesterday, h2]

/-- Witness for C3 at concrete dates: a report filed the previous calendar
day bumps a streak of 4 to 5, a same-day report leaves it at 4, and a
three-day-old report resets it to 1. -/
theorem computeStreak_spec_witness :
    computeStreak none 0 ⟨1000, ⟨2026, 9, 11⟩⟩ = 1 ∧
    computeStreak (some ⟨900, ⟨2026, 9, 11⟩⟩) 4 ⟨1000, ⟨2026, 9, 11⟩⟩ = 4 ∧
    computeStreak (some ⟨900, ⟨2026, 9, 10⟩⟩) 4 ⟨1000, ⟨2026, 9, 11⟩⟩ = 4 + 1 ∧
    computeStreak (some ⟨900, ⟨2026, 9, 8⟩⟩) 4 ⟨1000, ⟨2026, 9, 11⟩⟩ = 1 :=
  ⟨(computeStreak_spec ⟨900, ⟨2026, 9, 11⟩⟩ 0 ⟨1000, ⟨2026, 9, 11⟩⟩).1,
   (computeStreak_spec ⟨900, ⟨2026, 9, 11⟩⟩ 4 ⟨1000, ⟨2026, 9, 11⟩⟩).2.1 (by decide),
   (computeStreak_spec ⟨900, ⟨2026, 9, 10⟩⟩ 4 ⟨1000, ⟨2026, 9, 11⟩⟩).2.2.1 (by decide),
   (computeStreak_spec ⟨900, ⟨2026, 9, 8⟩⟩ 4 ⟨1000, ⟨2026, 9, 11⟩⟩).2.2.2 (by decide)
     (by decide)⟩

/-- C9: persistence read failures are never surfaced: on a missing or
unreadable record `getUserProfile` returns the freshly initialized default
profile, whose points, reports and streak are zero, and `getComplaints`
returns the empty sequence. -/
theorem read_failure_defaults (now : Timestamp) (pc : Cell UserProfile)
    (cc : Cell (List Complaint)) :
    getUserProfile ⟨Cell.corrupt, cc⟩ now = DEFAULT_PROFILE now ∧
    getUserProfile ⟨Cell.absent, cc⟩ now = DEFAULT_PROFILE now ∧
    (DEFAULT_PROFILE now).totalPoints = 0 ∧
    (DEFAULT_PROFILE now).totalReports = 0 ∧
    (DEFAULT_PROFILE now).streak = 0 ∧
    getComplaints ⟨pc, Cell.corrupt⟩ = [] ∧
    getComplaints ⟨pc, Cell.absent⟩ = [] :=
  ⟨rfl, rfl, rfl, rfl, rfl, rfl, rfl⟩

/-- C1 (amended): for every input and every starting store state whose
persisted complaints are all dated no later than the new report,
`fileComplaint` increases `totalReports` by exactly 1, increases
`totalPoints` by exactly the `pointsAwarded` it returns, and the new
complaint is the first element a subsequent `getComplaints()` returns. -/
theorem fileComplaint_spec (store : Store) (params : FileComplaintParams)
    (now : Timestamp) (freshId : String)
    (hc : ∀ c ∈ getComplaints store, c.createdAt.ms ≤ now.ms) :
    (fileComplaint store params now freshId).profile.totalReports =
        (getUserProfile store now).totalReports + 1 ∧
    (fileComplaint store params now freshId).profile.totalPoints =
        (getUserProfile store now).totalPoints +
          (fileComplaint store params now freshId).pointsAwarded ∧
    (getComplaints (fileComplaint store params now freshId).store).head? =
        some (fileComplaint store params now freshId).complaint := by
  refine ⟨rfl, rfl, ?_⟩
  have hstep : getComplaints (fileComplaint store params now freshId).store =
      List.insertionSort complaintOrder
        ((fileComplaint store params now freshId).complaint :: getComplaints store) := rfl
  rw [hstep, List.insertionSort_cons _ (fun b hb => hc b hb)]
  rfl

/-- Witness for C1 on the empty store at a concrete input. -/
theorem fileComplaint_spec_witness :
    (∀ c ∈ getComplaints ⟨Cell.absent, Cell.absent⟩, c.createdAt.ms ≤ sampleNow.ms) ∧
    ((fileComplaint ⟨Cell.absent, Cell.absent⟩ sampleParams sampleNow
          "complaint-1").profile.totalReports =
        (getUserProfile ⟨Cell.absent, Cell.absent⟩ sampleNow).totalReports + 1 ∧
      (fileComplaint ⟨Cell.absent, Cell.absent⟩ sampleParams sampleNow
          "complaint-1").profile.totalPoints =
        (getUserProfile ⟨Cell.absent, Cell.absent⟩ sampleNow).totalPoints +
          (fileComplaint ⟨Cell.absent, Cell.absent⟩ sampleParams sampleNow
            "complaint-1").pointsAwarded ∧
      (getComplaints (fileComplaint ⟨Cell.absent, Cell.absent⟩ sampleParams sampleNow
          "complaint-1").store).head? =
        some (fileComplaint ⟨Cell.absent, Cell.absent⟩ sampleParams sampleNow
          "complaint-1").complaint) :=
  ⟨fun c hc => by simp [getComplaints] at hc,
   fileComplaint_spec ⟨Cell.absent, Cell.absent⟩ sampleParams sampleNow "complaint-1"
     (fun c hc => by simp [getComplaints] at hc)⟩

/-- C1 as literally stated is false: starting from `sampleLateStore`, whose
one persisted complaint is dated after the new report, the newly created
complaint is not the first element of a subsequent `getComplaints()`. -/
theorem fileComplaint_first_counterexample :
    ¬ ((getComplaints (fileComplaint sampleLateStore sampleParams sampleNow
          "complaint-1").store).head? =
        some (fileComplaint sampleLateStore sampleParams sampleNow
          "complaint-1").complaint) := by
  have h1 : (getComplaints (fileComplaint sampleLateStore sampleParams sampleNow
      "complaint-1").store).head? = some sampleLateComplaint := rfl
  rw [h1]
  intro h
  injection h with h2
  exact absurd (congrArg Complaint.id h2) (by decide)

/-- C8: in every store state reachable from the initial empty storage by
the store's own operations, the profile's `totalReports` equals the number
of complaints in the persisted complaint log. -/
theorem totalReports_eq_complaintCount {s : Store} (h : Reachable s) :
    ∀ now : Timestamp,
      (getUserProfile s now).totalReports = (persistedComplaintCount s : Int) := by
  induction h with
  | init => intro now; rfl
  | @file s1 params now1 freshId hr ih =>
    intro now
    have h1 : (getUserProfile (fileComplaint s1 params now1 freshId).store now).totalReports
        = (getUserProfile s1 now1).totalReports + 1 := rfl
    have h2 : persistedComplaintCount (fileComplaint s1 params now1 freshId).store
        = (getComplaints s1).length + 1 := rfl
    rw [h1, ih now1, h2, length_getComplaints]
    push_cast
    ring
  | @rename s1 name now1 hr ih =>
    intro now
    have h1 : (getUserProfile (updateUserName s1 name now1).2 now).totalReports
        = (getUserProfile s1 now1).totalReports := rfl
    have h2 : persistedComplaintCount (updateUserName s1 name now1).2
        = persistedComplaintCount s1 := rfl
    rw [h1, ih now1, h2]
  | @saveCurrent s1 now1 hr ih =>
    intro now
    have h1 : (getUserProfile (saveUserProfile s1 (getUserProfile s1 now1)) now).totalReports
        = (getUserProfile s1 now1).totalReports := rfl
    have h2 : persistedComplaintCount (saveUserProfile s1 (getUserProfile s1 now1))
        = persistedComplaintCount s1 := rfl
    rw [h1, ih now1, h2]

/-- Witness for C8 on the state reached by filing one complaint from the
initial state. -/
theorem totalReports_eq_complaintCount_witness :
    Reachable (fileComplaint ⟨Cell.absent, Cell.absent⟩ sampleParams sampleNow
      "complaint-1").store ∧
    (getUserProfile (fileComplaint ⟨Cell.absent, Cell.absent⟩ sampleParams sampleNow
        "complaint-1").store sampleNow).totalReports =
      (persistedComplaintCount (fileComplaint ⟨Cell.absent, Cell.absent⟩ sampleParams
        sampleNow "complaint-1").store : Int) :=
  ⟨Reachable.file sampleParams sampleNow "complaint-1" Reachable.init,
   totalReports_eq_complaintCount
     (Reachable.file sampleParams sampleNow "complaint-1" Reachable.init) sampleNow⟩

theorem keywordsOf_entry : ∀ e ∈ LABEL_TO_CATEGORY, keywordsOf e.category = e.keywords := by
  intro e he
  fin_cases he <;> rfl

theorem entry_category_ne_unknown : ∀ e ∈ LABEL_TO_CATEGORY, e.category ≠ .unknown := by
  intro e he
  fin_cases he <;> decide

theorem stepLabel_eval (sc : WasteCategory → CatScore) (label : LabelInfo)
    (c : WasteCategory) :
    stepLabel sc label c =
      if c = .unknown then sc c else updateCat (sc c) label (keywordsOf c) := by
  cases c <;> rfl

theorem foldl_stepLabel_eval (labels : List LabelInfo) (sc : WasteCategory → CatScore)
    (c : WasteCategory) (hc : c ≠ .unknown) :
    (labels.foldl stepLabel sc) c =
      labels.foldl (fun s label => updateCat s label (keywordsOf c)) (sc c) := by
  induction labels generalizing sc with
  | nil => rfl
  | cons l ls ih =>
    simp only [List.foldl_cons]
    rw [ih, stepLabel_eval]
    simp [hc]

theorem computeScores_eval (labels : List LabelInfo) (c : WasteCategory)
    (hc : c ≠ .unknown) : computeScores labels c = pointScores c labels :=
  foldl_stepLabel_eval labels _ c hc

theorem updateCat_count (s : CatScore) (l : LabelInfo) (c : WasteCategory) :
    (updateCat s l (keywordsOf c)).count =
      s.count + (if labelMatches c l then 1 else 0) := by
  unfold updateCat labelMatches
  split_ifs <;> simp_all

theorem foldl_updateCat_count (labels : List LabelInfo) (s : CatScore)
    (c : WasteCategory) :
    (labels.foldl (fun s label => updateCat s label (keywordsOf c)) s).count =
      s.count + labels.countP (labelMatches c) := by
  induction labels generalizing s with
  | nil => simp
  | cons l ls ih =>
    rw [List.foldl_cons, ih, updateCat_count, List.countP_cons]
    by_cases hm : labelMatches c l = true
    all_goals simp [hm]
    all_goals omega

theorem pointScores_count (labels : List LabelInfo) (c : WasteCategory) :
    (pointScores c labels).count = labels.countP (labelMatches c) := by
  unfold pointScores
  rw [foldl_updateCat_count]
  simp

theorem pointScores_eq_init {labels : List LabelInfo} {c : WasteCategory}
    (h : ∀ l ∈ labels, labelMatches c l = false) :
    pointScores c labels = ⟨0, 0, ""⟩ := by
  unfold pointScores
  induction labels with
  | nil => rfl
  | cons l ls ih =>
    rw [List.foldl_cons]
    have h1 : updateCat ⟨0, 0, ""⟩ l (keywordsOf c) = ⟨0, 0, ""⟩ := by
      unfold updateCat
      rw [if_neg]
      have := h l (List.mem_cons_self l ls)
      unfold labelMatches at this
      simp [this]
    rw [h1]
    exact ih (fun l' hl' => h l' (List.mem_cons_of_mem l hl'))

theorem selectFold_const (scores : WasteCategory → CatScore) (es : List CategoryEntry)
    (hc : ∀ e ∈ es, scores e.category = ⟨0, 0, ""⟩) (b : WasteCategory) (bl : String) :
    es.foldl (selectStep scores) ⟨b, 0, 0, bl⟩ = ⟨b, 0, 0, bl⟩ := by
  induction es with
  | nil => rfl
  | cons e es ih =>
    rw [List.foldl_cons]
    have h1 : selectStep scores ⟨b, 0, 0, bl⟩ e = ⟨b, 0, 0, bl⟩ := by
      unfold selectStep
      rw [hc e (List.mem_cons_self e es)]
      rw [if_neg]
      simp
    rw [h1]
    exact ih (fun e' he' => hc e' (List.mem_cons_of_mem e he'))

/-- C4: for every label set in which no label description contains any
category keyword case-insensitively (the empty set included), the Vision
path's label mapping returns category `unknown` with confidence exactly
0.5, the best label being the first label's description or empty. -/
theorem mapLabelsToCategory_unknown_spec (labels : List LabelInfo)
    (h : ∀ l ∈ labels, ∀ e ∈ LABEL_TO_CATEGORY, ∀ kw ∈ e.keywords,
        jsIncludes (jsToLower l.description) kw = false) :
    mapLabelsToCategory labels =
      ⟨.unknown, 0.5, ((labels.head?).map LabelInfo.description).getD ""⟩ := by
  have hscores : ∀ e ∈ LABEL_TO_CATEGORY, computeScores labels e.category = ⟨0, 0, ""⟩ := by
    intro e he
    rw [computeScores_eval _ _ (entry_category_ne_unknown e he)]
    apply pointScores_eq_init
    intro l hl
    unfold labelMatches
    rw [keywordsOf_entry e he, List.any_eq_false]
    intro kw hkw
    simp [h l hl e he kw hkw]
  unfold mapLabelsToCategory selectBest
  rw [selectFold_const _ _ hscores]
  rfl

/-- Witness for C4 on a one-label set whose description matches no keyword. -/
theorem mapLabelsToCategory_unknown_spec_witness :
    (∀ l ∈ sampleMissLabels, ∀ e ∈ LABEL_TO_CATEGORY, ∀ kw ∈ e.keywords,
        jsIncludes (jsToLower l.description) kw = false) ∧
    mapLabelsToCategory sampleMissLabels =
      ⟨.unknown, 0.5, ((sampleMissLabels.head?).map LabelInfo.description).getD ""⟩ :=
  ⟨by decide, mapLabelsToCategory_unknown_spec sampleMissLabels (by decide)⟩

theorem lexDom_refl (c : Nat) (q : ℚ) : c < c ∨ (c = c ∧ q ≤ q) :=
  Or.inr ⟨rfl, le_refl q⟩

theorem lexDom_trans {c1 c2 c3 : Nat} {q1 q2 q3 : ℚ}
    (h1 : c2 < c1 ∨ (c2 = c1 ∧ q2 ≤ q1)) (h2 : c3 < c2 ∨ (c3 = c2 ∧ q3 ≤ q2)) :
    c3 < c1 ∨ (c3 = c1 ∧ q3 ≤ q1) := by
  rcases h1 with h1 | ⟨h1, h1q⟩ <;> rcases h2 with h2 | ⟨h2, h2q⟩
  · exact Or.inl (h2.trans h1)
  · exact Or.inl (h2 ▸ h1)
  · exact Or.inl (h1 ▸ h2)
  · exact Or.inr ⟨h1 ▸ h2, h2q.trans h1q⟩

theorem selectStep_dom (scores : WasteCategory → CatScore) (acc : BestAcc)
    (e : CategoryEntry) :
    (acc.bestCount < (selectStep scores acc e).bestCount ∨
      (acc.bestCount = (selectStep scores acc e).bestCount ∧
        acc.bestScore ≤ (selectStep scores acc e).bestScore)) ∧
    ((scores e.category).count < (selectStep scores acc e).bestCount ∨
      ((scores e.category).count = (selectStep scores acc e).bestCount ∧
        (scores e.category).maxScore ≤ (selectStep scores acc e).bestScore)) ∧
    (selectStep scores acc e = acc ∨
      selectStep scores acc e =
        ⟨e.category, (scores e.category).count, (scores e.category).maxScore,
          (scores e.category).bestLabel⟩) := by
  unfold selectStep
  dsimp only
  split_ifs with h
  · refine ⟨?_, lexDom_refl _ _, Or.inr rfl⟩
    rcases h with h | ⟨h, hq⟩
    · exact Or.inl h
    · exact Or.inr ⟨h.symm, le_of_lt hq⟩
  · push_neg at h
    refine ⟨lexDom_refl _ _, ?_, Or.inl rfl⟩
    rcases lt_or_eq_of_le h.1 with hlt | heq
    · exact Or.inl hlt
    · exact Or.inr ⟨heq, h.2 heq⟩

theorem selectFold_spec (scores : WasteCategory → CatScore) :
    ∀ (es : List CategoryEntry) (acc : BestAcc),
      (acc.bestCount < (es.foldl (selectStep scores) acc).bestCount ∨
        (acc.bestCount = (es.foldl (selectStep scores) acc).bestCount ∧
          acc.bestScore ≤ (es.foldl (selectStep scores) acc).bestScore)) ∧
      (∀ e ∈ es,
        (scores e.category).count < (es.foldl (selectStep scores) acc).bestCount ∨
          ((scores e.category).count = (es.foldl (selectStep scores) acc).bestCount ∧
            (scores e.category).maxScore ≤ (es.foldl (selectStep scores) acc).bestScore)) ∧
      (es.foldl (selectStep scores) acc = acc ∨
        ∃ e ∈ es, es.foldl (selectStep scores) acc =
          ⟨e.category, (scores e.category).count, (scores e.category).maxScore,
            (scores e.category).bestLabel⟩) := by
  intro es
  induction es with
  | nil =>
    intro acc
    exact ⟨lexDom_refl _ _, fun e he => absurd he (List.not_mem_nil e), Or.inl rfl⟩
  | cons e es ih =>
    intro acc
    rw [List.foldl_cons]
    obtain ⟨ihdom, ihall, ihorigin⟩ := ih (selectStep scores acc e)
    obtain ⟨sdom, sentry, sorigin⟩ := selectStep_dom scores acc e
    refine ⟨?_, ?_, ?_⟩
    · exact lexDom_trans ihdom sdom
    · intro e' he'
      rcases List.mem_cons.mp he' with rfl | he'
      · exact lexDom_trans ihdom sentry
      · exact ihall e' he'
    · rcases ihorigin with hfix | ⟨e', he', hval⟩
      · rcases sorigin with hacc | hentry
        · exact Or.inl (hfix.trans hacc)
        · exact Or.inr ⟨e, List.mem_cons_self e es, hfix.trans hentry⟩
      · exact Or.inr ⟨e', List.mem_cons_of_mem e he', hval⟩

/-- C5: for every label set with at least one case-insensitive keyword hit,
the label mapping returns a table category that maximizes the keyword-match
count, ties broken by the highest recorded best score; that category's
keyword list contains a substring of some lowercased label description, and
the returned confidence lies in [0, 1]. -/
theorem mapLabelsToCategory_match_spec (labels : List LabelInfo)
    (hm : ∃ l ∈ labels, ∃ e ∈ LABEL_TO_CATEGORY, ∃ kw ∈ e.keywords,
        jsIncludes (jsToLower l.description) kw = true) :
    (∃ e0 ∈ LABEL_TO_CATEGORY,
        (mapLabelsToCategory labels).category = e0.category ∧
        (∃ kw ∈ e0.keywords, ∃ l ∈ labels,
          jsIncludes (jsToLower l.description) kw = true) ∧
        (∀ e ∈ LABEL_TO_CATEGORY,
          (computeScores labels e.category).count <
              (computeScores labels e0.category).count ∨
            ((computeScores labels e.category).count =
                (computeScores labels e0.category).count ∧
              (computeScores labels e.category).maxScore ≤
                (computeScores labels e0.category).maxScore))) ∧
    0 ≤ (mapLabelsToCategory labels).confidence ∧
    (mapLabelsToCategory labels).confidence ≤ 1 := by
  obtain ⟨l, hl, e, he, kw, hkw, hmatch⟩ := hm
  -- the matched entry's category has a positive match count
  have hcount : 0 < (computeScores labels e.category).count := by
    rw [computeScores_eval _ _ (entry_category_ne_unknown e he), pointScores_count]
    rw [List.countP_pos_iff]
    refine ⟨l, hl, ?_⟩
    unfold labelMatches
    rw [keywordsOf_entry e he, List.any_eq_true]
    exact ⟨kw, hkw, hmatch⟩
  obtain ⟨hdom, hall, horigin⟩ :=
    selectFold_spec (computeScores labels) LABEL_TO_CATEGORY ⟨.unknown, 0, 0, ""⟩
  set acc := selectBest (computeScores labels) with hacc
  have haccfold : LABEL_TO_CATEGORY.foldl (selectStep (computeScores labels))
      ⟨.unknown, 0, 0, ""⟩ = acc := rfl
  rw [haccfold] at hdom hall horigin
  -- the winning count is positive, so the unknown branch is not taken
  have hpos : 0 < acc.bestCount := by
    rcases hall e he with h | ⟨h, _⟩
    · exact lt_of_le_of_lt (Nat.zero_le _) h
    · exact h ▸ hcount
  have hne : ¬ (acc.bestCount = 0) := by omega
  have hres : mapLabelsToCategory labels =
      { category := acc.best, confidence := min 1 (max 0 (jsRound2 acc.bestScore)),
        bestLabel := acc.bestLabel } := by
    unfold mapLabelsToCategory
    rw [← hacc, if_neg hne]
  rcases horigin with hfix | ⟨e0, he0, hval⟩
  · exfalso
    rw [hfix] at hpos
    exact absurd hpos (by decide)
  · refine ⟨⟨e0, he0, ?_, ?_, ?_⟩, ?_, ?_⟩
    · rw [hres, hval]
    · -- the winner's count is positive, hence some label matched it
      have hc0 : 0 < (computeScores labels e0.category).count := by
        have : acc.bestCount = (computeScores labels e0.category).count := by
          rw [hval]
        omega
      rw [computeScores_eval _ _ (entry_category_ne_unknown e0 he0),
        pointScores_count, List.countP_pos_iff] at hc0
      obtain ⟨l', hl', hm'⟩ := hc0
      unfold labelMatches at hm'
      rw [keywordsOf_entry e0 he0, List.any_eq_true] at hm'
      obtain ⟨kw', hkw', hjs⟩ := hm'
      exact ⟨kw', hkw', l', hl', hjs⟩
    · intro e' he'
      have := hall e' he'
      rw [hval] at this
      exact this
    · rw [hres]
      exact le_min (by norm_num) (le_max_left 0 _)
    · rw [hres]
      exact min_le_left 1 _

/-- Witness for C5 on a one-label set matching the plastic keywords. -/
theorem mapLabelsToCategory_match_spec_witness :
    (∃ l ∈ sampleLabels, ∃ e ∈ LABEL_TO_CATEGORY, ∃ kw ∈ e.keywords,
        jsIncludes (jsToLower l.description) kw = true) ∧
    ((∃ e0 ∈ LABEL_TO_CATEGORY,
        (mapLabelsToCategory sampleLabels).category = e0.category ∧
        (∃ kw ∈ e0.keywords, ∃ l ∈ sampleLabels,
          jsIncludes (jsToLower l.description) kw = true) ∧
        (∀ e ∈ LABEL_TO_CATEGORY,
          (computeScores sampleLabels e.category).count <
              (computeScores sampleLabels e0.category).count ∨
            ((computeScores sampleLabels e.category).count =
                (computeScores sampleLabels e0.category).count ∧
              (computeScores sampleLabels e.category).maxScore ≤
                (computeScores sampleLabels e0.category).maxScore))) ∧
      0 ≤ (mapLabelsToCategory sampleLabels).confidence ∧
      (mapLabelsToCategory sampleLabels).confidence ≤ 1) :=
  ⟨by decide, mapLabelsToCategory_match_spec sampleLabels (by decide)⟩

/-- C6: the heuristic fallback is deterministic: any two evaluations of the
heuristic path on the same image reference string yield the identical
category and the identical confidence. -/
theorem heuristicClassify_deterministic (s1 s2 : String) (h : s1 = s2) :
    (heuristicClassify s1).1 = (heuristicClassify s2).1 ∧
    (heuristicClassify s1).2 = (heuristicClassify s2).2 := by
  rw [h]
  exact ⟨rfl, rfl⟩

/-- Witness for C6 at a concrete image reference. -/
theorem heuristicClassify_deterministic_witness :
    "file://img-1.jpg" = "file://img-1.jpg" ∧
    ((heuristicClassify "file://img-1.jpg").1 = (heuristicClassify "file://img-1.jpg").1 ∧
      (heuristicClassify "file://img-1.jpg").2 = (heuristicClassify "file://img-1.jpg").2) :=
  ⟨rfl, heuristicClassify_deterministic "file://img-1.jpg" "file://img-1.jpg" rfl⟩

theorem jsRem_nonneg_bounds {a b : Int} (ha : 0 ≤ a) (hb : 0 < b) :
    0 ≤ jsRem a b ∧ jsRem a b < b := by
  unfold jsRem
  rw [if_neg (by omega)]
  exact ⟨Int.emod_nonneg a (by omega), Int.emod_lt_of_pos a hb⟩

theorem jsRound2_bounds {x : ℚ} (h1 : (0.60 : ℚ) ≤ x) (h2 : x ≤ 0.95) :
    (0.60 : ℚ) ≤ jsRound2 x ∧ jsRound2 x ≤ 0.95 := by
  unfold jsRound2
  constructor
  · have hfl : (60 : Int) ≤ ⌊x * 100 + 1 / 2⌋ := by
      rw [Int.le_floor]
      push_cast
      norm_num at h1 ⊢
      linarith
    have hq : ((60 : Int) : ℚ) ≤ (⌊x * 100 + 1 / 2⌋ : ℚ) := by exact_mod_cast hfl
    norm_num at hq ⊢
    linarith
  · have hfl : ⌊x * 100 + 1 / 2⌋ < 96 := by
      rw [Int.floor_lt]
      push_cast
      norm_num at h2 ⊢
      linarith
    have hq : (⌊x * 100 + 1 / 2⌋ : ℚ) ≤ 95 := by exact_mod_cast Int.lt_add_one_iff.mp hfl
    norm_num at hq ⊢
    linarith

/-- C10: for every image reference string, the heuristic derives a hue in
[0, 359], hence a category index in [0, 7]; the `|| 'unknown'` fallback is
unreachable (the returned category is never `unknown`), and the returned
confidence lies in [0.60, 0.95]. -/
theorem heuristicClassify_safe (s : String) :
    0 ≤ (analyzeImageFeatures s).dominantHue ∧
    (analyzeImageFeatures s).dominantHue ≤ 359 ∧
    0 ≤ ⌊((analyzeImageFeatures s).dominantHue : ℚ) / 360 * 8⌋ ∧
    ⌊((analyzeImageFeatures s).dominantHue : ℚ) / 360 * 8⌋ ≤ 7 ∧
    (heuristicClassify s).1 ≠ WasteCategory.unknown ∧
    (0.60 : ℚ) ≤ (heuristicClassify s).2 ∧
    (heuristicClassify s).2 ≤ 0.95 := by
  obtain ⟨hh0, hh1⟩ := jsRem_nonneg_bounds (abs_nonneg (jsHash s)) (by norm_num : (0 : Int) < 360)
  have h1 : 0 ≤ (analyzeImageFeatures s).dominantHue := hh0
  have h2 : (analyzeImageFeatures s).dominantHue ≤ 359 := by
    have : jsRem |jsHash s| 360 < 360 := hh1
    show jsRem |jsHash s| 360 ≤ 359
    omega
  have hq0 : (0 : ℚ) ≤ ((analyzeImageFeatures s).dominantHue : ℚ) / 360 * 8 := by
    have : (0 : ℚ) ≤ ((analyzeImageFeatures s).dominantHue : ℚ) := by exact_mod_cast h1
    positivity
  have h3 : 0 ≤ ⌊((analyzeImageFeatures s).dominantHue : ℚ) / 360 * 8⌋ :=
    Int.floor_nonneg.mpr hq0
  have h4 : ⌊((analyzeImageFeatures s).dominantHue : ℚ) / 360 * 8⌋ ≤ 7 := by
    have hc : ((analyzeImageFeatures s).dominantHue : ℚ) ≤ 359 := by exact_mod_cast h2
    have : ⌊((analyzeImageFeatures s).dominantHue : ℚ) / 360 * 8⌋ < 8 := by
      rw [Int.floor_lt]
      push_cast
      linarith
    omega
  have h5 : (heuristicClassify s).1 ≠ WasteCategory.unknown := by
    have hres : (heuristicClassify s).1 =
        heuristicCategories.getD
          (⌊((analyzeImageFeatures s).dominantHue : ℚ) / 360 * 8⌋).toNat
          WasteCategory.unknown := by
      unfold heuristicClassify
      dsimp only
      rw [if_neg (by omega)]
    rw [hres]
    have hn : (⌊((analyzeImageFeatures s).dominantHue : ℚ) / 360 * 8⌋).toNat ≤ 7 := by omega
    set n := (⌊((analyzeImageFeatures s).dominantHue : ℚ) / 360 * 8⌋).toNat with hndef
    interval_cases n <;> decide
  have hconf : (heuristicClassify s).2 =
      jsRound2 (min 0.95 (max 0.60 (0.70 + (analyzeImageFeatures s).saturation * 0.2 +
        (analyzeImageFeatures s).brightness * 0.1))) := rfl
  have hx1 : (0.60 : ℚ) ≤ min 0.95 (max 0.60 (0.70 + (analyzeImageFeatures s).saturation * 0.2 +
      (analyzeImageFeatures s).brightness * 0.1)) :=
    le_min (by norm_num) (le_max_left _ _)
  have hx2 : min 0.95 (max 0.60 (0.70 + (analyzeImageFeatures s).saturation * 0.2 +
      (analyzeImageFeatures s).brightness * 0.1)) ≤ 0.95 := min_le_left _ _
  obtain ⟨hc1, hc2⟩ := jsRound2_bounds hx1 hx2
  exact ⟨h1, h2, h3, h4, h5, hconf ▸ hc1, hconf ▸ hc2⟩

theorem assignRanks_map_rank (l : List LeaderboardEntry) (i : Nat) :
    (assignRanks i l).map LeaderboardEntry.rank =
      (List.range' (i + 1) l.length).map (fun n => (n : Int)) := by
  induction l generalizing i with
  | nil => rfl
  | cons e es ih =>
    simp only [assignRanks, List.map_cons, List.length_cons, List.range'_succ]
    rw [ih]
    congr 1

theorem assignRanks_map_obs (l : List LeaderboardEntry) (i : Nat) :
    (assignRanks i l).map (fun e => (e.totalPoints, e.isCurrentUser)) =
      l.map (fun e => (e.totalPoints, e.isCurrentUser)) := by
  induction l generalizing i with
  | nil => rfl
  | cons e es ih => simp [assignRanks, ih]

theorem countP_assignRanks (l : List LeaderboardEntry) (i : Nat) :
    (assignRanks i l).countP (fun e => e.isCurrentUser) =
      l.countP (fun e => e.isCurrentUser) := by
  induction l generalizing i with
  | nil => rfl
  | cons e es ih => simp [assignRanks, List.countP_cons, ih]

theorem pairwise_orderedInsert {α : Type} (r : α → α → Prop) [DecidableRel r]
    (S : α → α → Prop) (hS : ∀ a b, ¬ r a b → S b a) (x : α) :
    ∀ {ys : List α}, ys.Pairwise S → (∀ y ∈ ys, S x y) →
      (List.orderedInsert r x ys).Pairwise S := by
  intro ys
  induction ys with
  | nil =>
    intro _ _
    simp [List.orderedInsert]
  | cons y ys ih =>
    intro hp hx
    rw [List.orderedInsert]
    split_ifs with hr
    · exact List.pairwise_cons.mpr ⟨hx, hp⟩
    · obtain ⟨hy, hp'⟩ := List.pairwise_cons.mp hp
      refine List.pairwise_cons.mpr
        ⟨?_, ih hp' (fun z hz => hx z (List.mem_cons_of_mem y hz))⟩
      intro z hz
      rcases (List.mem_orderedInsert r).mp hz with hzx | hz'
      · rw [hzx]
        exact hS x y hr
      · exact hy z hz'

theorem pairwise_insertionSort {α : Type} (r : α → α → Prop) [DecidableRel r]
    (S : α → α → Prop) (hS : ∀ a b, ¬ r a b → S b a) :
    ∀ {l : List α}, l.Pairwise S → (List.insertionSort r l).Pairwise S := by
  intro l
  induction l with
  | nil => intro h; exact h
  | cons x xs ih =>
    intro hp
    obtain ⟨hx, hp'⟩ := List.pairwise_cons.mp hp
    exact pairwise_orderedInsert r S hS x (ih hp')
      (fun y hy => hx y ((List.mem_insertionSort r).mp hy))

theorem leaderboard_shape (u : LeaderboardEntry) (hu : u.isCurrentUser = true) :
    (assignRanks 0 (List.insertionSort leaderboardOrder (communityMembers ++ [u]))).Pairwise
        (fun a b => b.totalPoints ≤ a.totalPoints ∧
          (a.totalPoints = b.totalPoints → b.isCurrentUser = true)) ∧
    (assignRanks 0 (List.insertionSort leaderboardOrder (communityMembers ++ [u]))).map
        LeaderboardEntry.rank = [1, 2, 3, 4, 5, 6, 7, 8, 9, 10] ∧
    (assignRanks 0 (List.insertionSort leaderboardOrder (communityMembers ++ [u]))).countP
        (fun e => e.isCurrentUser) = 1 := by
  have hS : ∀ a b : LeaderboardEntry, ¬ leaderboardOrder a b →
      (b.totalPoints = a.totalPoints → a.isCurrentUser = true) := by
    intro a b hr heq
    exact absurd (le_of_eq heq) hr
  have hinput : (communityMembers ++ [u]).Pairwise
      (fun a b => a.totalPoints = b.totalPoints → b.isCurrentUser = true) := by
    rw [List.pairwise_append]
    refine ⟨by decide, List.pairwise_singleton _ _, ?_⟩
    intro a _ b hb
    rcases List.mem_singleton.mp hb with rfl
    exact fun _ => hu
  have hsorted : (List.insertionSort leaderboardOrder (communityMembers ++ [u])).Pairwise
      leaderboardOrder := List.sorted_insertionSort leaderboardOrder (communityMembers ++ [u])
  have htie := pairwise_insertionSort leaderboardOrder _ hS hinput
  have hlen : (List.insertionSort leaderboardOrder (communityMembers ++ [u])).length = 10 := by
    rw [List.length_insertionSort]
    simp [communityMembers]
  refine ⟨?_, ?_, ?_⟩
  · have hpw := hsorted.and htie
    have hobs := assignRanks_map_obs
      (List.insertionSort leaderboardOrder (communityMembers ++ [u])) 0
    have h2 : ((List.insertionSort leaderboardOrder (communityMembers ++ [u])).map
        (fun e => (e.totalPoints, e.isCurrentUser))).Pairwise
        (fun p q : Int × Bool => q.1 ≤ p.1 ∧ (p.1 = q.1 → q.2 = true)) := by
      rw [List.pairwise_map]
      exact hpw
    rw [← hobs] at h2
    exact List.pairwise_map.mp h2
  · rw [assignRanks_map_rank, hlen]
    decide
  · rw [countP_assignRanks,
      (List.perm_insertionSort leaderboardOrder (communityMembers ++ [u])).countP_eq
        (fun e => e.isCurrentUser),
      List.countP_append]
    simp [communityMembers, List.countP_cons, hu]

/-- C7: for every stored profile, `getLeaderboard()` is sorted by
`totalPoints` descending with ties keeping pre-sort order (on a tie the
later entry is the current user's, who is appended last before sorting),
its ranks are exactly 1..10 by post-sort position, and exactly one entry
has `isCurrentUser = true`. -/
theorem getLeaderboard_spec (store : Store) (now : Timestamp) :
    (getLeaderboard store now).Pairwise
        (fun a b => b.totalPoints ≤ a.totalPoints ∧
          (a.totalPoints = b.totalPoints → b.isCurrentUser = true)) ∧
    (getLeaderboard store now).map LeaderboardEntry.rank =
      [1, 2, 3, 4, 5, 6, 7, 8, 9, 10] ∧
    (getLeaderboard store now).countP (fun e => e.isCurrentUser) = 1 :=
  leaderboard_shape
    { id := (getUserProfile store now).id, name := (getUserProfile store now).name,
      totalPoints := (getUserProfile store now).totalPoints,
      totalReports := (getUserProfile store now).totalReports, rank := 0,
      isCurrentUser := true } rfl

end Sularchi
